import Mathlib

/-!
Verification of the phitigra `SimpleGraphEditor` (file `simple_editor.py`).

The interactive editor code is shallowly embedded here over exact rational
arithmetic: canvas pixel coordinates and logical graph coordinates are `ℚ`,
the view transform is a 3×3 matrix over `ℚ` (the source uses Sage matrices),
and the Python `int()` truncation is modelled by `pyInt`.  Distances that the
source compares through `math.sqrt` are compared here through their squares,
which is equivalent for non-negative quantities; the float literal `0.1` of
`_normalize_layout` is modelled by the rational `1/10`.  Code that can raise
a `KeyError` (dictionary lookups) is modelled with `Option` / `Except`.
-/

namespace Phitigra

/-- The Python `int()` cast on a rational: truncation toward zero. -/
def pyInt (q : ℚ) : ℤ :=
  if q < 0 then -⌊-q⌋ else ⌊q⌋

/-! ### The affine view transform

The source stores the view transform as a Sage 3×3 matrix
(`self._transform_matrix`), multiplies column vectors `(x, y, 1)` by it
(`_get_coord_on_canvas`) and by its inverse (`_set_vertex_pos`).  We model
the matrix by `Matrix (Fin 3) (Fin 3) ℚ`; `inv3` is the computable inverse
by adjugate, which agrees with the matrix inverse whenever the determinant
is nonzero (the only situation in which the `.inverse()` call of the source
succeeds). -/

abbrev TMat := Matrix (Fin 3) (Fin 3) ℚ

/-- Computable inverse of a 3×3 rational matrix (adjugate over determinant). -/
def inv3 (M : TMat) : TMat :=
  (M.det)⁻¹ • M.adjugate

/-- `_get_coord_on_canvas`: apply the transform matrix to `(x, y, 1)` and
cast both coordinates with `int(...)`. -/
def getCoordOnCanvas (M : TMat) (p : ℚ × ℚ) : ℤ × ℤ :=
  let m := M.mulVec ![p.1, p.2, 1]
  (pyInt (m 0), pyInt (m 1))

/-- The logical coordinates stored by `_set_vertex_pos` for a canvas point
`(x, y)`: the first two components of `transform⁻¹ · (x, y, 1)`. -/
def setVertexPosCoord (M : TMat) (x y : ℚ) : ℚ × ℚ :=
  let w := (inv3 M).mulVec ![x, y, 1]
  (w 0, w 1)

/-! ### Vertex hit-testing (`_get_vertex_at`) -/

/-- What the vertex hit-test sees for one vertex: its name, its canvas
position (after `_get_coord_on_canvas`, hence the integer cast), and its
radius. -/
structure VEntry where
  name : ℕ
  cx : ℚ
  cy : ℚ
  radius : ℚ
  deriving DecidableEq

/-- Squared distance from the pixel `(px, py)` to the center of `v`
(the source computes `d_x*d_x + d_y*d_y` on absolute differences). -/
def vDistSq (px py : ℚ) (v : VEntry) : ℚ :=
  (px - v.cx) ^ 2 + (py - v.cy) ^ 2

/-- The acceptance test of `_get_vertex_at` for one vertex: the bounding-box
test `d_x < radius and d_y < radius` together with `d <= radius` (stated on
squares: `d ≤ radius` iff `d² ≤ radius²` for the non-negative `d`). -/
def vHit (px py : ℚ) (v : VEntry) : Prop :=
  |px - v.cx| < v.radius ∧ |py - v.cy| < v.radius ∧ vDistSq px py v ≤ v.radius ^ 2

instance (px py : ℚ) (v : VEntry) : Decidable (vHit px py v) := by
  unfold vHit; infer_instance

/-- The running-minimum loop of `_get_vertex_at`.  The accumulator holds the
square of the `min_dist` of the source together with `arg_min`; `d < min_dist` on
non-negative quantities is `d² < min_dist²`. -/
def getVertexAtAux (px py : ℚ) : List VEntry → ℚ × Option ℕ → ℚ × Option ℕ
  | [], acc => acc
  | v :: rest, (m, am) =>
      if vHit px py v ∧ vDistSq px py v < m then
        getVertexAtAux px py rest (vDistSq px py v, some v.name)
      else
        getVertexAtAux px py rest (m, am)

/-- `_get_vertex_at`: the vertex whose shape contains `(px, py)` and whose
center is closest; `min_dist` starts at the canvas width ("aka infinity"). -/
def getVertexAt (width px py : ℚ) (l : List VEntry) : Option ℕ :=
  (getVertexAtAux px py l (width ^ 2, none)).2

/-! ### Edge hit-testing (`_get_edge_at`) -/

/-- What the edge hit-test sees for one edge: its endpoint names `u`, `v`
and their canvas positions `pu`, `pv`. -/
structure EEntry where
  u : ℕ
  v : ℕ
  pu : ℚ × ℚ
  pv : ℚ × ℚ
  deriving DecidableEq

/-- `sqnorm` of the source: squared norm of the difference. -/
def sqnorm2 (a b : ℚ × ℚ) : ℚ :=
  (a.1 - b.1) * (a.1 - b.1) + (a.2 - b.2) * (a.2 - b.2)

/-- Squared distance from `p` to its perpendicular foot of projection on the
line through `pv` and `pu` (`t`, `proj` and `d` of the source).  The source
divides by `sqnorm(pv, pu)` and hence raises `ZeroDivisionError` when the two
canvas positions coincide; theorems below therefore assume `pv ≠ pu`. -/
def pfootDistSq (p pu pv : ℚ × ℚ) : ℚ :=
  let t := ((p.1 - pv.1) * (pu.1 - pv.1) + (p.2 - pv.2) * (pu.2 - pv.2)) / sqnorm2 pv pu
  sqnorm2 (pv.1 + t * (pu.1 - pv.1), pv.2 + t * (pu.2 - pv.2)) p

/-- The pre-filter of `_get_edge_at`: the point lies in the bounding box of
the two endpoints inflated by the fixed 10-pixel slack (negation of the
`continue` condition of the source). -/
def eInBBox (px py : ℚ) (e : EEntry) : Prop :=
  ¬ (px < min e.pv.1 e.pu.1 - 10 ∨ px > max e.pv.1 e.pu.1 + 10 ∨
     py < min e.pv.2 e.pu.2 - 10 ∨ py > max e.pv.2 e.pu.2 + 10)

instance (px py : ℚ) (e : EEntry) : Decidable (eInBBox px py e) := by
  unfold eInBBox; infer_instance

/-- The running-minimum loop of `_get_edge_at`.  `min_dist` starts at `10`
and is compared against the squared distance `d`, exactly as in the source
(which initializes `min_dist = 10` but then stores squared norms in it).
`hasE` is the external `graph.has_edge` used to orient the returned pair. -/
def getEdgeAtAux (px py : ℚ) (hasE : ℕ → ℕ → Bool) :
    List EEntry → ℚ × Option (ℕ × ℕ) → ℚ × Option (ℕ × ℕ)
  | [], acc => acc
  | e :: rest, (m, am) =>
      if eInBBox px py e ∧ pfootDistSq (px, py) e.pu e.pv < m then
        getEdgeAtAux px py hasE rest
          (pfootDistSq (px, py) e.pu e.pv,
           some (if hasE e.u e.v then (e.u, e.v) else (e.v, e.u)))
      else
        getEdgeAtAux px py hasE rest (m, am)

/-- `_get_edge_at`: the closest edge near `(px, py)`, or `none`. -/
def getEdgeAt (px py : ℚ) (hasE : ℕ → ℕ → Bool) (l : List EEntry) : Option (ℕ × ℕ) :=
  (getEdgeAtAux px py hasE l (10, none)).2

/-! ### `_normalize_layout` -/

/-- Minimum of a head element and a list (the Python `min` over a non-empty
iterable, split as head and tail). -/
def foldMin (a : ℚ) (l : List ℚ) : ℚ := l.foldl min a

/-- Maximum of a head element and a list. -/
def foldMax (a : ℚ) (l : List ℚ) : ℚ := l.foldl max a

/-- `x_min` of `_normalize_layout` over the non-empty vertex list. -/
def xMinOf (vr : (ℚ × ℚ) × ℚ) (rest : List ((ℚ × ℚ) × ℚ)) : ℚ :=
  foldMin vr.1.1 (rest.map fun p => p.1.1)

/-- `x_max` of `_normalize_layout`. -/
def xMaxOf (vr : (ℚ × ℚ) × ℚ) (rest : List ((ℚ × ℚ) × ℚ)) : ℚ :=
  foldMax vr.1.1 (rest.map fun p => p.1.1)

/-- `y_min` of `_normalize_layout`. -/
def yMinOf (vr : (ℚ × ℚ) × ℚ) (rest : List ((ℚ × ℚ) × ℚ)) : ℚ :=
  foldMin vr.1.2 (rest.map fun p => p.1.2)

/-- `y_max` of `_normalize_layout`. -/
def yMaxOf (vr : (ℚ × ℚ) × ℚ) (rest : List ((ℚ × ℚ) × ℚ)) : ℚ :=
  foldMax vr.1.2 (rest.map fun p => p.1.2)

/-- `x_range` of `_normalize_layout`: clamped below by `0.1` ("max to avoid
division by 0"); the float literal `0.1` is modelled by `1/10`. -/
def xRangeOf (vr : (ℚ × ℚ) × ℚ) (rest : List ((ℚ × ℚ) × ℚ)) : ℚ :=
  max (xMaxOf vr rest - xMinOf vr rest) (1 / 10)

/-- `y_range` of `_normalize_layout`, clamped like `x_range`. -/
def yRangeOf (vr : (ℚ × ℚ) × ℚ) (rest : List ((ℚ × ℚ) × ℚ)) : ℚ :=
  max (yMaxOf vr rest - yMinOf vr rest) (1 / 10)

/-- The margin kept by `_normalize_layout` on the sides: largest radius
plus 5. -/
def normalizeMargin (vr : (ℚ × ℚ) × ℚ) (rest : List ((ℚ × ℚ) × ℚ)) : ℚ :=
  foldMax vr.2 (rest.map fun p => p.2) + 5

/-- The scale factor of `_normalize_layout`: the smaller of the two
per-axis factors, so that proportions are kept. -/
def normalizeFactor (width height : ℚ) (vr : (ℚ × ℚ) × ℚ)
    (rest : List ((ℚ × ℚ) × ℚ)) : ℚ :=
  min ((width - 2 * normalizeMargin vr rest) / xRangeOf vr rest)
      ((height - 2 * normalizeMargin vr rest) / yRangeOf vr rest)

/-- `_normalize_layout`: from the list of (logical position, radius) pairs of
the vertices, recompute the transform matrix so the graph drawing fits the
canvas.  An empty vertex list leaves the matrix unchanged (the
`if not self.graph` early return). -/
def normalizeMatrix (width height : ℚ) (old : TMat) :
    List ((ℚ × ℚ) × ℚ) → TMat
  | [] => old
  | vr :: rest =>
      let margin := normalizeMargin vr rest
      let targetW := width - 2 * margin
      let targetH := height - 2 * margin
      let factor := normalizeFactor width height vr rest
      let xshift := margin + (targetW - xRangeOf vr rest * factor) / 2
      let yshift := margin + (targetH - yRangeOf vr rest * factor) / 2
      Matrix.of ![![1, 0, xshift], ![0, 1, yshift], ![0, 0, 1]]
        * Matrix.of ![![factor, 0, 0], ![0, factor, 0], ![0, 0, 1]]
        * Matrix.of ![![1, 0, -xMinOf vr rest], ![0, 1, -yMinOf vr rest], ![0, 0, 1]]

/-! ### Edge colors (`get_edge_color` / `set_edge_color`)

The `edge_colors` dictionary is modelled as a function to `Option String`;
a `KeyError` on key `k` is `Except.error k`, a `ValueError` of
`set_edge_color` is `Except.error ()`. -/

/-- `get_edge_color` (after the `u, v, *_ = e` unpacking): try key `(u, v)`;
on a miss, fall back to `(v, u)` for undirected graphs, re-raise for
directed ones. -/
def getEdgeColor (colors : ℕ × ℕ → Option String) (directed : Bool) (u v : ℕ) :
    Except (ℕ × ℕ) String :=
  match colors (u, v) with
  | some c => Except.ok c
  | none =>
      if directed = false then
        match colors (v, u) with
        | some c => Except.ok c
        | none => Except.error (v, u)
      else
        Except.error (u, v)

/-- `get_edge_color` applied to a labelled triple: the unpacking
`u, v, *_ = e` drops the label. -/
def getEdgeColorT (colors : ℕ × ℕ → Option String) (directed : Bool)
    (e : ℕ × ℕ × ℕ) : Except (ℕ × ℕ) String :=
  getEdgeColor colors directed e.1 e.2.1

/-- `graph.has_edge` on a pair, as answered by the external graph object:
the pair is an edge, in either orientation when undirected. -/
def hasEdgeG (directed : Bool) (edges : List (ℕ × ℕ)) (u v : ℕ) : Prop :=
  (u, v) ∈ edges ∨ (directed = false ∧ (v, u) ∈ edges)

instance (directed : Bool) (edges : List (ℕ × ℕ)) (u v : ℕ) :
    Decidable (hasEdgeG directed edges u v) := by
  unfold hasEdgeG; infer_instance

/-- `set_edge_color`: raise `ValueError` when the pair is not an edge;
otherwise write through key `(u, v)` if that key is present, else through
key `(v, u)`. -/
def setEdgeColor (directed : Bool) (edges : List (ℕ × ℕ))
    (colors : ℕ × ℕ → Option String) (u v : ℕ) (c : String) :
    Except Unit (ℕ × ℕ → Option String) :=
  if hasEdgeG directed edges u v then
    if (colors (u, v)).isSome then
      Except.ok (fun p => if p = (u, v) then some c else colors p)
    else
      Except.ok (fun p => if p = (v, u) then some c else colors p)
  else
    Except.error ()

/-! ### The arrowhead test of `_draw_edge` -/

/-- The condition under which `_draw_edge` draws the arrow tip of a directed
edge `(u, v)`: some axis-aligned displacement between the endpoint canvas
positions exceeds `dist_min = radius_v + radius_u`. -/
def arrowDrawn (posu posv : ℚ × ℚ) (ru rv : ℚ) : Prop :=
  |posu.1 - posv.1| > rv + ru ∨ |posu.2 - posv.2| > rv + ru

instance (posu posv : ℚ × ℚ) (ru rv : ℚ) : Decidable (arrowDrawn posu posv ru rv) := by
  unfold arrowDrawn; infer_instance

/-! ### The editor state and its handlers

`EState` gathers the mutable state of `SimpleGraphEditor` that the mouse and
widget callbacks read and write: the graph data (vertices, edges, the
position store `get_pos`, directedness and the external predicate answers
`is_planar` / `is_forest`), the per-vertex radii (`_get_radius`, a
dictionary with a default), the transform matrix, the two selection sets,
the drag state, the multi-click gesture attributes (attribute absence in the
source is `none` here), the radius box and the text-output label.  Drawing
calls only touch the canvas objects and are not part of the state. -/

structure EState where
  vertices : List ℕ
  edges : List (ℕ × ℕ)
  directed : Bool
  planarB : Bool
  forestB : Bool
  pos : ℕ → Option (ℚ × ℚ)
  radii : ℕ → ℚ
  transform : TMat
  selVerts : List ℕ
  selEdges : List (ℕ × ℕ)
  draggedVertex : Option ℕ
  draggingCanvasFrom : Option (ℚ × ℚ)
  initialClickPos : ℚ × ℚ
  currentClique : Option (List ℕ)
  currentWalkVertex : Option ℕ
  currentStarCenter : Option ℕ
  currentStarLeaf : Option ℕ
  currentTool : String
  radiusBox : ℚ
  textOutput : String
  canvasWidth : ℚ
  canvasHeight : ℚ

/-- `_clean_tools`: delete the four multi-click gesture attributes. -/
def cleanTools (s : EState) : EState :=
  { s with currentClique := none, currentWalkVertex := none,
           currentStarCenter := none, currentStarLeaf := none }

/-- `_select_vertex(v)` with a vertex: flip its membership in
`selected_vertices`, report it, and promote its radius into the radius
box. -/
def selectVertex (s : EState) (v : ℕ) : EState :=
  if v ∈ s.selVerts then
    { s with selVerts := s.selVerts.erase v,
             textOutput := "Unselected vertex " ++ toString v,
             radiusBox := s.radii v }
  else
    { s with selVerts := v :: s.selVerts,
             textOutput := "Selected vertex " ++ toString v,
             radiusBox := s.radii v }

/-- `_select_vertex()` with no vertex: clear `selected_vertices` only. -/
def unselectAllVertices (s : EState) : EState :=
  { s with selVerts := [] }

/-- `tool_selector_callback` (the tool widget has already switched to `t`):
clean the gesture state, clear both selections, blank the text output. -/
def toolSelectorCallback (s : EState) (t : String) : EState :=
  let s1 := cleanTools { s with currentTool := t }
  let s2 := unselectAllVertices s1
  { s2 with selEdges := [], textOutput := "" }

/-- `clear_drawing_button_callback`: replace the graph by `Graph(0)` (no
vertices, no edges, undirected, empty position store), clear
`selected_vertices` via `_select_vertex(redraw=None)`, and report.  Nothing
else is touched. -/
def clearDrawingButtonCallback (s : EState) : EState :=
  { s with vertices := [], edges := [], directed := false,
           planarB := true, forestB := true,
           pos := fun _ => none,
           selVerts := [],
           textOutput := "Cleared drawing." }

/-- `_set_vertex_pos` on the state: store the inverse-transformed click
point as the logical position of `v`. -/
def setVertexPosS (s : EState) (v : ℕ) (x y : ℚ) : EState :=
  { s with pos := fun u => if u = v then some (setVertexPosCoord s.transform x y) else s.pos u }

/-- The pure-translation matrix composed by `_translate_layout`. -/
def translationMat (dx dy : ℚ) : TMat :=
  Matrix.of ![![1, 0, dx], ![0, 1, dy], ![0, 0, 1]]

/-- `_translate_layout`: compose a translation onto the transform matrix. -/
def translateLayout (s : EState) (dx dy : ℚ) : EState :=
  { s with transform := translationMat dx dy * s.transform }

/-- `mouse_move_handler`: while a vertex is dragged, store its new position;
while the canvas is dragged, translate the layout and advance the anchor. -/
def mouseMoveHandler (s : EState) (px py : ℚ) : EState :=
  match s.draggedVertex with
  | some v =>
      { (setVertexPosS s v px py) with textOutput := "Dragging vertex " ++ toString v }
  | none =>
      match s.draggingCanvasFrom with
      | some q =>
          { (translateLayout s (px - q.1) (py - q.2)) with draggingCanvasFrom := some (px, py) }
      | none => s

/-- `mouse_up_handler`: a release close to the press point (strictly less
than 10 pixels in both axes) turns a vertex drag into a selection toggle and
a canvas drag into a full deselection; otherwise the drag simply ends. -/
def mouseUpHandler (s : EState) (px py : ℚ) : EState :=
  match s.draggedVertex with
  | some v =>
      if |px - s.initialClickPos.1| < 10 ∧ |py - s.initialClickPos.2| < 10 then
        { (selectVertex s v) with draggedVertex := none }
      else
        { s with draggedVertex := none, textOutput := "Done dragging vertex." }
  | none =>
      match s.draggingCanvasFrom with
      | some _ =>
          let s1 := { s with draggingCanvasFrom := none }
          if |px - s.initialClickPos.1| < 10 ∧ |py - s.initialClickPos.2| < 10 then
            { s1 with selVerts := [], selEdges := [], textOutput := "Emptied selection." }
          else s1
      | none => s

/-- The `VEntry` of a vertex in a state: its canvas position (through the
transform and the integer cast) and its radius; `none` when the position
store has no entry for it (the source would raise a `KeyError`). -/
def vertexEntry (s : EState) (v : ℕ) : Option VEntry :=
  (s.pos v).map fun q =>
    let c := getCoordOnCanvas s.transform q
    ⟨v, (c.1 : ℚ), (c.2 : ℚ), s.radii v⟩

/-- The `EEntry` of an edge in a state, when both endpoints are positioned. -/
def edgeEntry (s : EState) (e : ℕ × ℕ) : Option EEntry :=
  match s.pos e.1, s.pos e.2 with
  | some qu, some qv =>
      let cu := getCoordOnCanvas s.transform qu
      let cv := getCoordOnCanvas s.transform qv
      some ⟨e.1, e.2, ((cu.1 : ℚ), (cu.2 : ℚ)), ((cv.1 : ℚ), (cv.2 : ℚ))⟩
  | _, _ => none

/-- `graph.has_edge` of the graph held in the state, as a Boolean. -/
def hasEdgeB (s : EState) (u v : ℕ) : Bool :=
  decide (hasEdgeG s.directed s.edges u v)

/-- `mouse_down_handler` restricted to the `select / move` tool (the other
tools dispatch to their own `mouse_action_*` functions): record the press
point, hit-test vertices then edges, and start a vertex drag, toggle an edge
selection, or start a canvas pan.  `none` models the `KeyError` the source
raises when a vertex lacks a stored position. -/
def mouseDownSelectMove (s : EState) (px py : ℚ) : Option EState := do
  let ventries ← s.vertices.mapM (vertexEntry s)
  let s0 := { s with initialClickPos := (px, py) }
  match getVertexAt s0.canvasWidth px py ventries with
  | some v =>
      pure { s0 with draggedVertex := some v,
                     textOutput := "Click on vertex " ++ toString v }
  | none => do
      let eentries ← s.edges.mapM (edgeEntry s)
      match getEdgeAt px py (hasEdgeB s) eentries with
      | some e =>
          if e ∈ s0.selEdges then
            pure { s0 with selEdges := s0.selEdges.erase e }
          else
            pure { s0 with selEdges := e :: s0.selEdges }
      | none =>
          pure { s0 with draggingCanvasFrom := some (px, py) }

/-- A sequence of `mouse_move_handler` events. -/
def foldMoves (s : EState) (moves : List (ℚ × ℚ)) : EState :=
  moves.foldl (fun t p => mouseMoveHandler t p.1 p.2) s

/-- A full press / drag / release run under the `select / move` tool. -/
def selectMoveScenario (s : EState) (d : ℚ × ℚ) (moves : List (ℚ × ℚ))
    (u : ℚ × ℚ) : Option EState :=
  (mouseDownSelectMove s d.1 d.2).map fun s1 =>
    mouseUpHandler (foldMoves s1 moves) u.1 u.2

/-- Error message for a planar layout of a non-planar graph. -/
def planarErrMsg : String :=
  "\x27planar\x27 layout impossible: the graph is not planar!"

/-- Error message for a directed-acyclic layout of an undirected graph. -/
def acyclicErrMsg : String :=
  "\x27directed acyclic\x27 layout impossible: the graph is not directed!"

/-- Error message for a forest layout of a directed graph. -/
def forestDirectedErrMsg : String :=
  "\x27forest\x27 layout impossible: it is defined only for undirected graphs"

/-- Error message for a forest layout of a graph that is not a forest. -/
def forestNotForestErrMsg : String :=
  "\x27forest\x27 layout impossible: the graph is not a forest!"

/-- `layout_selector_callback`.  `extLayout` stands for the external layout
computation (`_random_layout` or `graph.layout(...)`), an opaque
collaborator that produces the new position store.  The four infeasibility
checks return early with an error message, after `_clean_tools()` has
interrupted any gesture; a feasible request recomputes positions, normalizes
the transform and reports completion. -/
def layoutSelectorCallback (extLayout : String → EState → ℕ → Option (ℚ × ℚ))
    (s : EState) (changeName changeNew : String) : EState :=
  if changeName ≠ "value" then s
  else if changeNew = "- change layout -" then s
  else
    let s2 := { (cleanTools s) with textOutput := "Updating layout, please wait..." }
    if changeNew = "planar" ∧ s.planarB = false then
      { s2 with textOutput := planarErrMsg }
    else if changeNew = "acyclic" ∧ s.directed = false then
      { s2 with textOutput := acyclicErrMsg }
    else if (changeNew = "forest (root up)" ∨ changeNew = "forest (root down)")
        ∧ s.directed = true then
      { s2 with textOutput := forestDirectedErrMsg }
    else if (changeNew = "forest (root up)" ∨ changeNew = "forest (root down)")
        ∧ s.forestB = false then
      { s2 with textOutput := forestNotForestErrMsg }
    else
      let newPos := extLayout changeNew s2
      let s3 := { s2 with pos := newPos }
      let verts := s3.vertices.filterMap fun v => (s3.pos v).map fun q => (q, s3.radii v)
      { s3 with
          transform := normalizeMatrix s3.canvasWidth s3.canvasHeight s3.transform verts,
          textOutput := "Done updating layout." }

/-- The position of a dragged vertex after a sequence of
`mouse_move_handler` ticks: each tick overwrites it with the
inverse-transformed move point, so only the last move matters. -/
def lastPosUpdate (M : TMat) (p0 : Option (ℚ × ℚ)) (moves : List (ℚ × ℚ)) :
    Option (ℚ × ℚ) :=
  moves.foldl (fun _ mp => some (setVertexPosCoord M mp.1 mp.2)) p0

/-- A trivial instantiation of the external layout collaborator (used to
instantiate theorems at concrete inputs). -/
def extLayoutNone : String → EState → ℕ → Option (ℚ × ℚ) :=
  fun _ _ _ => none

/-- A base editor state used to build concrete scenarios: one vertex `0` at
logical position `(50, 50)`, identity transform, radius 20, nothing
selected, no drag, no gesture in progress, 600×400 canvas. -/
def baseState : EState where
  vertices := [0]
  edges := []
  directed := false
  planarB := true
  forestB := true
  pos := fun v => if v = 0 then some (50, 50) else none
  radii := fun _ => 20
  transform := 1
  selVerts := []
  selEdges := []
  draggedVertex := none
  draggingCanvasFrom := none
  initialClickPos := (0, 0)
  currentClique := none
  currentWalkVertex := none
  currentStarCenter := none
  currentStarLeaf := none
  currentTool := "select / move"
  radiusBox := 20
  textOutput := ""
  canvasWidth := 600
  canvasHeight := 400

/-- A state with a walk gesture in progress and a selected edge (reachable
by selecting the edge under `select / move` after starting a walk would not
be, but each component is reachable; the callbacks are plain state
functions, so any state can be probed). -/
def gestureState : EState :=
  { baseState with
      vertices := [0, 1, 2, 3],
      edges := [(0, 1)],
      planarB := false,
      selEdges := [(0, 1)],
      currentClique := some [2],
      currentWalkVertex := some 3,
      currentStarCenter := some 2,
      currentStarLeaf := some 3 }

/-- The state reached from `baseState` by a `select / move` pointer-down on
its lone vertex at the canvas point `(50, 50)`. -/
def baseDownState : EState :=
  { baseState with initialClickPos := (50, 50), draggedVertex := some 0,
                   textOutput := "Click on vertex 0" }

/-- The state reached from `baseDownState` by a `mouse_move_handler` tick at
the canvas point `(59, 50)`: the dragged vertex position is overwritten. -/
def baseMovedState : EState :=
  { setVertexPosS baseDownState 0 59 50 with textOutput := "Dragging vertex 0" }

/-- The initial transform matrix of `__init__`: identity with the y-axis
flipped (canvas y grows downward). -/
def flipMat : TMat := Matrix.of ![![1, 0, 0], ![0, -1, 0], ![0, 0, 1]]

/-- A concrete `edge_colors` store: the lone edge `(1, 6)` is keyed with the
default color (used to instantiate theorems at concrete inputs). -/
def colorsC10 : ℕ × ℕ → Option String :=
  fun p => if p = (1, 6) then some "black" else none

/-! ## Lemmas about `pyInt` -/

theorem pyInt_le_of_nonneg {q : ℚ} (h : 0 ≤ q) : (pyInt q : ℚ) ≤ q := by
  unfold pyInt
  rw [if_neg (not_lt.mpr h)]
  exact Int.floor_le q

theorem sub_one_lt_pyInt_of_nonneg {q : ℚ} (h : 0 ≤ q) : q - 1 < (pyInt q : ℚ) := by
  unfold pyInt
  rw [if_neg (not_lt.mpr h)]
  have := Int.lt_floor_add_one q
  linarith

theorem abs_pyInt_sub_lt_one (q : ℚ) : |(pyInt q : ℚ) - q| < 1 := by
  unfold pyInt
  rcases lt_or_ge q 0 with h | h
  · rw [if_pos h]
    have h1 : (⌊-q⌋ : ℚ) ≤ -q := Int.floor_le (-q)
    have h2 : -q < (⌊-q⌋ : ℚ) + 1 := Int.lt_floor_add_one (-q)
    rw [abs_lt]
    push_cast
    constructor <;> linarith
  · rw [if_neg (not_lt.mpr h)]
    have h1 : (⌊q⌋ : ℚ) ≤ q := Int.floor_le q
    have h2 : q < (⌊q⌋ : ℚ) + 1 := Int.lt_floor_add_one q
    rw [abs_lt]
    constructor <;> linarith

theorem pyInt_intCast (n : ℤ) : pyInt (n : ℚ) = n := by
  unfold pyInt
  rcases lt_or_ge (n : ℚ) 0 with h | h
  · rw [if_pos h]
    rw [show (-(n : ℚ)) = ((-n : ℤ) : ℚ) by push_cast; ring, Int.floor_intCast]
    ring
  · rw [if_neg (not_lt.mpr h), Int.floor_intCast]

/-! ## Lemmas about the transform matrix -/

theorem inv3_mul (M : TMat) (h : M.det ≠ 0) : M * inv3 M = 1 := by
  unfold inv3
  rw [Matrix.mul_smul, Matrix.mul_adjugate, smul_smul, inv_mul_cancel₀ h, one_smul]

theorem mulVec_inv3_mulVec (M : TMat) (h : M.det ≠ 0) (v : Fin 3 → ℚ) :
    M.mulVec ((inv3 M).mulVec v) = v := by
  rw [Matrix.mulVec_mulVec, inv3_mul M h, Matrix.one_mulVec]

theorem inv3_one : inv3 (1 : TMat) = 1 := by
  unfold inv3
  rw [Matrix.det_one, Matrix.adjugate_one, inv_one, one_smul]

/-- Componentwise value of a 3×3 literal matrix applied to a vector. -/
theorem matLit_mulVec (a b c d e f g h i x y z : ℚ) :
    (Matrix.of ![![a, b, c], ![d, e, f], ![g, h, i]]).mulVec ![x, y, z]
      = ![a * x + b * y + c * z, d * x + e * y + f * z, g * x + h * y + i * z] := by
  funext j
  fin_cases j <;>
    simp [Matrix.mulVec, Matrix.dotProduct, Fin.sum_univ_three]

theorem setVertexPosCoord_one (x y : ℚ) : setVertexPosCoord 1 x y = (x, y) := by
  unfold setVertexPosCoord
  rw [inv3_one, Matrix.one_mulVec]
  simp

theorem getCoordOnCanvas_one (p : ℚ × ℚ) :
    getCoordOnCanvas 1 p = (pyInt p.1, pyInt p.2) := by
  unfold getCoordOnCanvas
  rw [Matrix.one_mulVec]
  simp

/-! ## Lemmas about head-and-tail folds of `min` / `max` -/

theorem foldMin_le_head (a : ℚ) (l : List ℚ) : foldMin a l ≤ a := by
  induction l generalizing a with
  | nil => exact le_refl a
  | cons b t ih =>
      calc foldMin a (b :: t) = foldMin (min a b) t := rfl
        _ ≤ min a b := ih (min a b)
        _ ≤ a := min_le_left a b

theorem foldMin_le_mem {x : ℚ} (a : ℚ) {l : List ℚ} (hx : x ∈ l) : foldMin a l ≤ x := by
  induction l generalizing a with
  | nil => cases hx
  | cons b t ih =>
      rcases List.mem_cons.mp hx with rfl | hx
      · calc foldMin a (x :: t) = foldMin (min a x) t := rfl
          _ ≤ min a x := foldMin_le_head _ t
          _ ≤ x := min_le_right a x
      · exact ih (min a b) hx

theorem head_le_foldMax (a : ℚ) (l : List ℚ) : a ≤ foldMax a l := by
  induction l generalizing a with
  | nil => exact le_refl a
  | cons b t ih =>
      calc a ≤ max a b := le_max_left a b
        _ ≤ foldMax (max a b) t := ih (max a b)
        _ = foldMax a (b :: t) := rfl

theorem mem_le_foldMax {x : ℚ} (a : ℚ) {l : List ℚ} (hx : x ∈ l) : x ≤ foldMax a l := by
  induction l generalizing a with
  | nil => cases hx
  | cons b t ih =>
      rcases List.mem_cons.mp hx with rfl | hx
      · calc x ≤ max a x := le_max_right a x
          _ ≤ foldMax (max a x) t := head_le_foldMax _ t
          _ = foldMax a (x :: t) := rfl
      · exact ih (max a b) hx

/-! ## The vertex hit-test -/

theorem getVertexAtAux_fst_le (px py : ℚ) (l : List VEntry) :
    ∀ m am, (getVertexAtAux px py l (m, am)).1 ≤ m := by
  induction l with
  | nil => intro m am; exact le_refl m
  | cons v t ih =>
      intro m am
      by_cases h : vHit px py v ∧ vDistSq px py v < m
      · rw [show getVertexAtAux px py (v :: t) (m, am)
              = getVertexAtAux px py t (vDistSq px py v, some v.name) by
            simp [getVertexAtAux, h]]
        exact le_trans (ih _ _) (le_of_lt h.2)
      · rw [show getVertexAtAux px py (v :: t) (m, am)
              = getVertexAtAux px py t (m, am) by simp [getVertexAtAux, h]]
        exact ih m am

theorem getVertexAtAux_fst_le_hit (px py : ℚ) (l : List VEntry) :
    ∀ m am v, v ∈ l → vHit px py v →
      (getVertexAtAux px py l (m, am)).1 ≤ vDistSq px py v := by
  induction l with
  | nil => intro m am v hv; cases hv
  | cons w t ih =>
      intro m am v hv hhit
      by_cases h : vHit px py w ∧ vDistSq px py w < m
      · rw [show getVertexAtAux px py (w :: t) (m, am)
              = getVertexAtAux px py t (vDistSq px py w, some w.name) by
            simp [getVertexAtAux, h]]
        rcases List.mem_cons.mp hv with rfl | hv
        · exact getVertexAtAux_fst_le px py t _ _
        · exact ih _ _ v hv hhit
      · rw [show getVertexAtAux px py (w :: t) (m, am)
              = getVertexAtAux px py t (m, am) by simp [getVertexAtAux, h]]
        rcases List.mem_cons.mp hv with rfl | hv
        · have hm : m ≤ vDistSq px py v := by
            by_contra hc
            exact h ⟨hhit, lt_of_not_le hc⟩
          exact le_trans (getVertexAtAux_fst_le px py t m am) hm
        · exact ih m am v hv hhit

theorem getVertexAtAux_cases (px py : ℚ) (l : List VEntry) :
    ∀ m am, getVertexAtAux px py l (m, am) = (m, am)
      ∨ ∃ v ∈ l, vHit px py v ∧ vDistSq px py v < m ∧
          getVertexAtAux px py l (m, am) = (vDistSq px py v, some v.name) := by
  induction l with
  | nil => intro m am; exact Or.inl rfl
  | cons w t ih =>
      intro m am
      by_cases h : vHit px py w ∧ vDistSq px py w < m
      · rw [show getVertexAtAux px py (w :: t) (m, am)
              = getVertexAtAux px py t (vDistSq px py w, some w.name) by
            simp [getVertexAtAux, h]]
        rcases ih (vDistSq px py w) (some w.name) with heq | ⟨v, hv, hhit, hlt, heq⟩
        · exact Or.inr ⟨w, List.mem_cons_self w t, h.1, h.2, heq⟩
        · exact Or.inr ⟨v, List.mem_cons_of_mem w hv, hhit, lt_trans hlt h.2, heq⟩
      · rw [show getVertexAtAux px py (w :: t) (m, am)
              = getVertexAtAux px py t (m, am) by simp [getVertexAtAux, h]]
        rcases ih m am with heq | ⟨v, hv, hhit, hlt, heq⟩
        · exact Or.inl heq
        · exact Or.inr ⟨v, List.mem_cons_of_mem w hv, hhit, hlt, heq⟩

theorem getVertexAtAux_of_no_hit (px py : ℚ) (l : List VEntry)
    (h : ∀ v ∈ l, ¬ vHit px py v) :
    ∀ m am, getVertexAtAux px py l (m, am) = (m, am) := by
  induction l with
  | nil => intro m am; rfl
  | cons w t ih =>
      intro m am
      have hw : ¬ (vHit px py w ∧ vDistSq px py w < m) := by
        intro hc
        exact h w (List.mem_cons_self w t) hc.1
      rw [show getVertexAtAux px py (w :: t) (m, am)
            = getVertexAtAux px py t (m, am) by simp [getVertexAtAux, hw]]
      exact ih (fun v hv => h v (List.mem_cons_of_mem w hv)) m am

/-- C4: the vertex hit-test `_get_vertex_at` returns, among the vertices
whose shape contains the point (`vHit`: the strict bounding-box test and
`d ≤ radius`), one whose center is closest in Euclidean distance (stated on
squared distances, equivalent by monotonicity of the square root); it
returns some vertex whenever a shape contains the point (given that radii
are below the canvas width, the initial `min_dist` of the source), and `none`
when no shape contains it.  In particular, on a lone vertex the point
`radius - 1` pixels from the center along the x-axis resolves to it, and
the point `radius + 1` pixels away resolves to `none`. -/
theorem claim_C4_vertex_hit_test (width px py : ℚ) (l : List VEntry)
    (hrw : ∀ v ∈ l, v.radius < width) :
    (∀ n, getVertexAt width px py l = some n →
        ∃ v ∈ l, v.name = n ∧ vHit px py v ∧
          ∀ u ∈ l, vHit px py u → vDistSq px py v ≤ vDistSq px py u)
    ∧ ((∃ v ∈ l, vHit px py v) → (getVertexAt width px py l).isSome)
    ∧ ((∀ v ∈ l, ¬ vHit px py v) → getVertexAt width px py l = none)
    ∧ (∀ (c : ℚ × ℚ) (r : ℚ) (n : ℕ), 1 / 2 < r → r < width →
        getVertexAt width (c.1 + (r - 1)) c.2 [⟨n, c.1, c.2, r⟩] = some n)
    ∧ (∀ (c : ℚ × ℚ) (r : ℚ) (n : ℕ),
        getVertexAt width (c.1 + (r + 1)) c.2 [⟨n, c.1, c.2, r⟩] = none) := by
  have key : ∀ (w' px' py' : ℚ) (l' : List VEntry),
      (∀ v ∈ l', v.radius < w') →
      (∀ n, getVertexAt w' px' py' l' = some n →
          ∃ v ∈ l', v.name = n ∧ vHit px' py' v ∧
            ∀ u ∈ l', vHit px' py' u → vDistSq px' py' v ≤ vDistSq px' py' u) := by
    intro w' px' py' l' _ n hn
    rcases getVertexAtAux_cases px' py' l' (w' ^ 2) none with heq | ⟨v, hv, hhit, _, heq⟩
    · rw [getVertexAt, heq] at hn
      cases hn
    · rw [getVertexAt, heq] at hn
      refine ⟨v, hv, by injection hn, hhit, fun u hu hhu => ?_⟩
      have := getVertexAtAux_fst_le_hit px' py' l' (w' ^ 2) none u hu hhu
      rw [heq] at this
      exact this
  have hsome : (∃ v ∈ l, vHit px py v) → (getVertexAt width px py l).isSome := by
    rintro ⟨v, hv, hhit⟩
    have hrpos : 0 < v.radius := lt_of_le_of_lt (abs_nonneg _) hhit.1
    have hr2 : v.radius ^ 2 < width ^ 2 :=
      pow_lt_pow_left₀ (hrw v hv) (le_of_lt hrpos) (by norm_num)
    have hd : vDistSq px py v < width ^ 2 := lt_of_le_of_lt hhit.2.2 hr2
    rcases getVertexAtAux_cases px py l (width ^ 2) none with heq | ⟨u, _, _, _, heq⟩
    · have hle := getVertexAtAux_fst_le_hit px py l (width ^ 2) none v hv hhit
      rw [heq] at hle
      exact absurd (lt_of_le_of_lt hle hd) (lt_irrefl _)
    · rw [getVertexAt, heq]
      rfl
  refine ⟨key width px py l hrw, hsome, ?_, ?_, ?_⟩
  · intro h
    rw [getVertexAt, getVertexAtAux_of_no_hit px py l h]
  · intro c r n h12 hrwid
    have hhit : vHit (c.1 + (r - 1)) c.2 ⟨n, c.1, c.2, r⟩ := by
      refine ⟨?_, ?_, ?_⟩
      · simp only [VEntry.radius]
        rw [show c.1 + (r - 1) - c.1 = r - 1 by ring, abs_lt]
        constructor <;> linarith
      · simp only [VEntry.radius]
        rw [sub_self, abs_zero]
        linarith
      · simp only [vDistSq, VEntry.radius]
        rw [show c.1 + (r - 1) - c.1 = r - 1 by ring, sub_self]
        nlinarith
    have hformat : ∀ v ∈ [(⟨n, c.1, c.2, r⟩ : VEntry)], v.radius < width := by
      intro v hv
      rcases List.mem_singleton.mp hv with rfl
      exact hrwid
    rcases key width (c.1 + (r - 1)) c.2 [⟨n, c.1, c.2, r⟩] hformat with hsound
    have hs : (getVertexAt width (c.1 + (r - 1)) c.2 [⟨n, c.1, c.2, r⟩]).isSome := by
      rcases getVertexAtAux_cases (c.1 + (r - 1)) c.2 [(⟨n, c.1, c.2, r⟩ : VEntry)]
          (width ^ 2) none with heq | ⟨u, _, _, _, heq⟩
      · have hle := getVertexAtAux_fst_le_hit (c.1 + (r - 1)) c.2
            [(⟨n, c.1, c.2, r⟩ : VEntry)] (width ^ 2) none _
            (List.mem_singleton.mpr rfl) hhit
        rw [heq] at hle
        have hrpos : 0 < r := by linarith
        have hr2 : r ^ 2 < width ^ 2 :=
          pow_lt_pow_left₀ hrwid (le_of_lt hrpos) (by norm_num)
        have hd := lt_of_le_of_lt hhit.2.2 hr2
        exact absurd (lt_of_le_of_lt hle hd) (lt_irrefl _)
      · rw [getVertexAt, heq]
        rfl
    rcases Option.isSome_iff_exists.mp hs with ⟨n', hn'⟩
    rcases hsound n' hn' with ⟨v, hv, hname, _, _⟩
    rcases List.mem_singleton.mp hv with rfl
    rw [hn']
    simp only [VEntry.name] at hname
    rw [hname]
  · intro c r n
    rw [getVertexAt, getVertexAtAux_of_no_hit]
    intro v hv
    rcases List.mem_singleton.mp hv with rfl
    intro hc
    have h1 : |c.1 + (r + 1) - c.1| < r := hc.1
    rw [show c.1 + (r + 1) - c.1 = r + 1 by ring] at h1
    have h2 : r + 1 ≤ |r + 1| := le_abs_self _
    linarith

/-- Witness for C4: on a lone vertex of radius 20 at canvas position
`(50, 50)`, the pixel `(69, 50)` (19 = radius − 1 away) resolves to it. -/
theorem claim_C4_witness :
    getVertexAt 600 (50 + (20 - 1)) 50 [⟨0, 50, 50, 20⟩] = some 0 := by
  have h := (claim_C4_vertex_hit_test 600 0 0 [] (by simp)).2.2.2.1
    (50, 50) 20 0 (by norm_num) (by norm_num)
  simpa using h

/-! ## The edge hit-test -/

theorem getEdgeAtAux_fst_le (px py : ℚ) (hasE : ℕ → ℕ → Bool) (l : List EEntry) :
    ∀ m am, (getEdgeAtAux px py hasE l (m, am)).1 ≤ m := by
  induction l with
  | nil => intro m am; exact le_refl m
  | cons e t ih =>
      intro m am
      by_cases h : eInBBox px py e ∧ pfootDistSq (px, py) e.pu e.pv < m
      · rw [show getEdgeAtAux px py hasE (e :: t) (m, am)
              = getEdgeAtAux px py hasE t (pfootDistSq (px, py) e.pu e.pv,
                  some (if hasE e.u e.v then (e.u, e.v) else (e.v, e.u))) by
            simp [getEdgeAtAux, h]]
        exact le_trans (ih _ _) (le_of_lt h.2)
      · rw [show getEdgeAtAux px py hasE (e :: t) (m, am)
              = getEdgeAtAux px py hasE t (m, am) by simp [getEdgeAtAux, h]]
        exact ih m am

theorem getEdgeAtAux_fst_le_cand (px py : ℚ) (hasE : ℕ → ℕ → Bool) (l : List EEntry) :
    ∀ m am e, e ∈ l → eInBBox px py e →
      (getEdgeAtAux px py hasE l (m, am)).1 ≤ pfootDistSq (px, py) e.pu e.pv := by
  induction l with
  | nil => intro m am e he; cases he
  | cons w t ih =>
      intro m am e he hbb
      by_cases h : eInBBox px py w ∧ pfootDistSq (px, py) w.pu w.pv < m
      · rw [show getEdgeAtAux px py hasE (w :: t) (m, am)
              = getEdgeAtAux px py hasE t (pfootDistSq (px, py) w.pu w.pv,
                  some (if hasE w.u w.v then (w.u, w.v) else (w.v, w.u))) by
            simp [getEdgeAtAux, h]]
        rcases List.mem_cons.mp he with rfl | he
        · exact getEdgeAtAux_fst_le px py hasE t _ _
        · exact ih _ _ e he hbb
      · rw [show getEdgeAtAux px py hasE (w :: t) (m, am)
              = getEdgeAtAux px py hasE t (m, am) by simp [getEdgeAtAux, h]]
        rcases List.mem_cons.mp he with rfl | he
        · have hm : m ≤ pfootDistSq (px, py) e.pu e.pv := by
            by_contra hc
            exact h ⟨hbb, lt_of_not_le hc⟩
          exact le_trans (getEdgeAtAux_fst_le px py hasE t m am) hm
        · exact ih m am e he hbb

theorem getEdgeAtAux_cases (px py : ℚ) (hasE : ℕ → ℕ → Bool) (l : List EEntry) :
    ∀ m am, getEdgeAtAux px py hasE l (m, am) = (m, am)
      ∨ ∃ e ∈ l, eInBBox px py e ∧ pfootDistSq (px, py) e.pu e.pv < m ∧
          getEdgeAtAux px py hasE l (m, am)
            = (pfootDistSq (px, py) e.pu e.pv,
               some (if hasE e.u e.v then (e.u, e.v) else (e.v, e.u))) := by
  induction l with
  | nil => intro m am; exact Or.inl rfl
  | cons w t ih =>
      intro m am
      by_cases h : eInBBox px py w ∧ pfootDistSq (px, py) w.pu w.pv < m
      · rw [show getEdgeAtAux px py hasE (w :: t) (m, am)
              = getEdgeAtAux px py hasE t (pfootDistSq (px, py) w.pu w.pv,
                  some (if hasE w.u w.v then (w.u, w.v) else (w.v, w.u))) by
            simp [getEdgeAtAux, h]]
        rcases ih (pfootDistSq (px, py) w.pu w.pv)
            (some (if hasE w.u w.v then (w.u, w.v) else (w.v, w.u))) with
          heq | ⟨e, he, hbb, hlt, heq⟩
        · exact Or.inr ⟨w, List.mem_cons_self w t, h.1, h.2, heq⟩
        · exact Or.inr ⟨e, List.mem_cons_of_mem w he, hbb, lt_trans hlt h.2, heq⟩
      · rw [show getEdgeAtAux px py hasE (w :: t) (m, am)
              = getEdgeAtAux px py hasE t (m, am) by simp [getEdgeAtAux, h]]
        rcases ih m am with heq | ⟨e, he, hbb, hlt, heq⟩
        · exact Or.inl heq
        · exact Or.inr ⟨e, List.mem_cons_of_mem w he, hbb, hlt, heq⟩

theorem getEdgeAtAux_of_far (px py : ℚ) (hasE : ℕ → ℕ → Bool) (l : List EEntry)
    (h : ∀ e ∈ l, eInBBox px py e → (10 : ℚ) ≤ pfootDistSq (px, py) e.pu e.pv) :
    ∀ m am, m ≤ 10 → getEdgeAtAux px py hasE l (m, am) = (m, am) := by
  induction l with
  | nil => intro m am _; rfl
  | cons w t ih =>
      intro m am hm
      have hw : ¬ (eInBBox px py w ∧ pfootDistSq (px, py) w.pu w.pv < m) := by
        rintro ⟨hbb, hlt⟩
        have := h w (List.mem_cons_self w t) hbb
        linarith
      rw [show getEdgeAtAux px py hasE (w :: t) (m, am)
            = getEdgeAtAux px py hasE t (m, am) by simp [getEdgeAtAux, hw]]
      exact ih (fun e he => h e (List.mem_cons_of_mem w he)) m am hm

/-- C2: the edge hit-test `_get_edge_at` returns an edge only if the point
passed the 10-pixel-inflated bounding-box pre-filter for it and the
perpendicular-foot-of-projection distance is below the 10-pixel threshold
(`pfootDistSq < 10 * 10` states `distance < 10` on squares; the source in
fact enforces the stronger `pfootDistSq < 10`, an effective threshold of
√10 pixels, which is recorded here too); among the bounding-box candidates
it returns one of minimum distance, and it returns `none` when no candidate
is within the threshold.  The hypothesis `_hsep` records that the source
divides by the squared distance between the endpoint canvas positions, so
they must differ. -/
theorem claim_C2_edge_hit_test (px py : ℚ) (hasE : ℕ → ℕ → Bool) (l : List EEntry)
    (_hsep : ∀ e ∈ l, e.pu ≠ e.pv) :
    (∀ d, getEdgeAt px py hasE l = some d →
        ∃ e ∈ l, (d = (e.u, e.v) ∨ d = (e.v, e.u)) ∧ eInBBox px py e ∧
          pfootDistSq (px, py) e.pu e.pv < 10 ∧
          pfootDistSq (px, py) e.pu e.pv < 10 * 10 ∧
          ∀ e2 ∈ l, eInBBox px py e2 →
            pfootDistSq (px, py) e.pu e.pv ≤ pfootDistSq (px, py) e2.pu e2.pv)
    ∧ ((∀ e ∈ l, eInBBox px py e → 10 * 10 ≤ pfootDistSq (px, py) e.pu e.pv) →
        getEdgeAt px py hasE l = none) := by
  constructor
  · intro d hd
    rcases getEdgeAtAux_cases px py hasE l 10 none with heq | ⟨e, he, hbb, hlt, heq⟩
    · rw [getEdgeAt, heq] at hd
      cases hd
    · rw [getEdgeAt, heq] at hd
      refine ⟨e, he, ?_, hbb, hlt, by linarith, fun e2 he2 hbb2 => ?_⟩
      · rcases hcase : hasE e.u e.v with _ | _ <;>
          rw [hcase] at hd <;> simp at hd <;> simp [hd]
      · have := getEdgeAtAux_fst_le_cand px py hasE l 10 none e2 he2 hbb2
        rw [heq] at this
        exact this
  · intro h
    rw [getEdgeAt, getEdgeAtAux_of_far px py hasE l
      (fun e he hbb => le_trans (by norm_num) (h e he hbb)) 10 none (le_refl 10)]

/-- Witness for C2: a point far from a lone edge (outside its inflated
bounding box) resolves to no edge. -/
theorem claim_C2_witness :
    getEdgeAt 500 300 (fun _ _ => true) [⟨0, 1, (50, 50), (50, 100)⟩] = none := by
  refine (claim_C2_edge_hit_test 500 300 (fun _ _ => true)
    [⟨0, 1, (50, 50), (50, 100)⟩] ?_).2 ?_
  · intro e he
    rcases List.mem_singleton.mp he with rfl
    simp only [EEntry.pu, EEntry.pv]
    intro hc
    have := congrArg Prod.snd hc
    norm_num at this
  · intro e he hbb
    rcases List.mem_singleton.mp he with rfl
    exfalso
    apply hbb
    norm_num

/-! ## `_normalize_layout` -/

/-- Applying the `translate_to_center * scale_to_canvas_size *
translate_to_origin` product of `_normalize_layout` to `(x, y, 1)`. -/
theorem affine_chain (f xs ys xmin ymin x y : ℚ) :
    (Matrix.of ![![1, 0, xs], ![0, 1, ys], ![0, 0, 1]]
      * Matrix.of ![![f, 0, 0], ![0, f, 0], ![0, 0, 1]]
      * Matrix.of ![![1, 0, -xmin], ![0, 1, -ymin], ![0, 0, 1]]).mulVec ![x, y, 1]
    = ![f * (x - xmin) + xs, f * (y - ymin) + ys, 1] := by
  rw [← Matrix.mulVec_mulVec, ← Matrix.mulVec_mulVec, matLit_mulVec]
  rw [show ![1 * x + 0 * y + -xmin * 1, 0 * x + 1 * y + -ymin * 1, 0 * x + 0 * y + 1 * 1]
        = ![x - xmin, y - ymin, 1] by funext i; fin_cases i <;> norm_num <;> ring]
  rw [matLit_mulVec]
  rw [show ![f * (x - xmin) + 0 * (y - ymin) + 0 * 1,
            0 * (x - xmin) + f * (y - ymin) + 0 * 1,
            0 * (x - xmin) + 0 * (y - ymin) + 1 * 1]
        = ![f * (x - xmin), f * (y - ymin), 1] by funext i; fin_cases i <;> norm_num]
  rw [matLit_mulVec]
  funext i
  fin_cases i <;> norm_num

/-- The canvas coordinates of a logical point after `_normalize_layout` on a
non-empty vertex list. -/
theorem getCoordOnCanvas_normalize_cons (width height : ℚ) (old : TMat)
    (vr : (ℚ × ℚ) × ℚ) (rest : List ((ℚ × ℚ) × ℚ)) (p : ℚ × ℚ) :
    getCoordOnCanvas (normalizeMatrix width height old (vr :: rest)) p
      = (pyInt (normalizeFactor width height vr rest * (p.1 - xMinOf vr rest)
            + (normalizeMargin vr rest
               + ((width - 2 * normalizeMargin vr rest)
                  - xRangeOf vr rest * normalizeFactor width height vr rest) / 2)),
         pyInt (normalizeFactor width height vr rest * (p.2 - yMinOf vr rest)
            + (normalizeMargin vr rest
               + ((height - 2 * normalizeMargin vr rest)
                  - yRangeOf vr rest * normalizeFactor width height vr rest) / 2))) := by
  simp only [getCoordOnCanvas, normalizeMatrix]
  rw [affine_chain]
  simp

/-- C3: after `_normalize_layout` on a non-empty vertex list (with
non-negative radii and a canvas at least twice the margin in each
dimension), the screen-space shape of every vertex (canvas center ± radius)
lies within the canvas bounds; the x- and y-ranges used by the computation
are clamped to at least `0.1`, so the scale factor divides by a positive
quantity; and on an empty vertex list the transform matrix is left
unchanged. -/
theorem claim_C3_normalize_layout (width height : ℚ) (old : TMat)
    (vr : (ℚ × ℚ) × ℚ) (rest : List ((ℚ × ℚ) × ℚ))
    (hrad : 0 ≤ foldMax vr.2 (rest.map fun p => p.2))
    (hW : 2 * normalizeMargin vr rest ≤ width)
    (hH : 2 * normalizeMargin vr rest ≤ height) :
    (∀ pr ∈ vr :: rest,
        0 ≤ ((getCoordOnCanvas (normalizeMatrix width height old (vr :: rest)) pr.1).1 : ℚ)
              - pr.2
        ∧ ((getCoordOnCanvas (normalizeMatrix width height old (vr :: rest)) pr.1).1 : ℚ)
              + pr.2 ≤ width
        ∧ 0 ≤ ((getCoordOnCanvas (normalizeMatrix width height old (vr :: rest)) pr.1).2 : ℚ)
              - pr.2
        ∧ ((getCoordOnCanvas (normalizeMatrix width height old (vr :: rest)) pr.1).2 : ℚ)
              + pr.2 ≤ height)
    ∧ ((1 : ℚ) / 10 ≤ xRangeOf vr rest ∧ (1 : ℚ) / 10 ≤ yRangeOf vr rest)
    ∧ normalizeMatrix width height old [] = old := by
  have hm5 : 5 ≤ normalizeMargin vr rest := by
    unfold normalizeMargin
    linarith
  have hxr : (0 : ℚ) < xRangeOf vr rest :=
    lt_of_lt_of_le (by norm_num) (le_max_right _ _)
  have hyr : (0 : ℚ) < yRangeOf vr rest :=
    lt_of_lt_of_le (by norm_num) (le_max_right _ _)
  have htw : 0 ≤ width - 2 * normalizeMargin vr rest := by linarith
  have hth : 0 ≤ height - 2 * normalizeMargin vr rest := by linarith
  have hf0 : 0 ≤ normalizeFactor width height vr rest :=
    le_min (div_nonneg htw hxr.le) (div_nonneg hth hyr.le)
  have hfxr : normalizeFactor width height vr rest * xRangeOf vr rest
      ≤ width - 2 * normalizeMargin vr rest := by
    have h1 := mul_le_mul_of_nonneg_right
      (min_le_left ((width - 2 * normalizeMargin vr rest) / xRangeOf vr rest)
        ((height - 2 * normalizeMargin vr rest) / yRangeOf vr rest)) hxr.le
    rwa [div_mul_cancel₀ _ (ne_of_gt hxr)] at h1
  have hfyr : normalizeFactor width height vr rest * yRangeOf vr rest
      ≤ height - 2 * normalizeMargin vr rest := by
    have h1 := mul_le_mul_of_nonneg_right
      (min_le_right ((width - 2 * normalizeMargin vr rest) / xRangeOf vr rest)
        ((height - 2 * normalizeMargin vr rest) / yRangeOf vr rest)) hyr.le
    rwa [div_mul_cancel₀ _ (ne_of_gt hyr)] at h1
  refine ⟨?_, ⟨le_max_right _ _, le_max_right _ _⟩, rfl⟩
  intro pr hpr
  have hxlo : xMinOf vr rest ≤ pr.1.1 := by
    rcases List.mem_cons.mp hpr with rfl | hpr
    · exact foldMin_le_head _ _
    · exact foldMin_le_mem _ (List.mem_map_of_mem (fun p => p.1.1) hpr)
  have hxhi : pr.1.1 ≤ xMaxOf vr rest := by
    rcases List.mem_cons.mp hpr with rfl | hpr
    · exact head_le_foldMax _ _
    · exact mem_le_foldMax _ (List.mem_map_of_mem (fun p => p.1.1) hpr)
  have hylo : yMinOf vr rest ≤ pr.1.2 := by
    rcases List.mem_cons.mp hpr with rfl | hpr
    · exact foldMin_le_head _ _
    · exact foldMin_le_mem _ (List.mem_map_of_mem (fun p => p.1.2) hpr)
  have hyhi : pr.1.2 ≤ yMaxOf vr rest := by
    rcases List.mem_cons.mp hpr with rfl | hpr
    · exact head_le_foldMax _ _
    · exact mem_le_foldMax _ (List.mem_map_of_mem (fun p => p.1.2) hpr)
  have hrle : pr.2 ≤ normalizeMargin vr rest - 5 := by
    unfold normalizeMargin
    have : pr.2 ≤ foldMax vr.2 (rest.map fun p => p.2) := by
      rcases List.mem_cons.mp hpr with rfl | hpr
      · exact head_le_foldMax _ _
      · exact mem_le_foldMax _ (List.mem_map_of_mem (fun p => p.2) hpr)
    linarith
  have hxspread : pr.1.1 - xMinOf vr rest ≤ xRangeOf vr rest :=
    le_trans (by linarith) (le_max_left _ _)
  have hyspread : pr.1.2 - yMinOf vr rest ≤ yRangeOf vr rest :=
    le_trans (by linarith) (le_max_left _ _)
  rw [getCoordOnCanvas_normalize_cons]
  set f := normalizeFactor width height vr rest with hfdef
  set marg := normalizeMargin vr rest with hmdef
  set cxq := f * (pr.1.1 - xMinOf vr rest)
      + (marg + ((width - 2 * marg) - xRangeOf vr rest * f) / 2) with hcx
  set cyq := f * (pr.1.2 - yMinOf vr rest)
      + (marg + ((height - 2 * marg) - yRangeOf vr rest * f) / 2) with hcy
  have hfx : f * (pr.1.1 - xMinOf vr rest) ≤ f * xRangeOf vr rest :=
    mul_le_mul_of_nonneg_left hxspread hf0
  have hfy : f * (pr.1.2 - yMinOf vr rest) ≤ f * yRangeOf vr rest :=
    mul_le_mul_of_nonneg_left hyspread hf0
  have hcxlo : marg ≤ cxq := by
    have h1 : 0 ≤ f * (pr.1.1 - xMinOf vr rest) := mul_nonneg hf0 (by linarith)
    have h2 : xRangeOf vr rest * f ≤ width - 2 * marg := by
      rw [mul_comm]
      exact hfxr
    rw [hcx]
    linarith
  have hcxhi : cxq ≤ width - marg := by
    have h2 : f * xRangeOf vr rest ≤ width - 2 * marg := hfxr
    rw [hcx]
    linarith [mul_comm (xRangeOf vr rest) f]
  have hcylo : marg ≤ cyq := by
    have h1 : 0 ≤ f * (pr.1.2 - yMinOf vr rest) := mul_nonneg hf0 (by linarith)
    have h2 : yRangeOf vr rest * f ≤ height - 2 * marg := by
      rw [mul_comm]
      exact hfyr
    rw [hcy]
    linarith
  have hcyhi : cyq ≤ height - marg := by
    have h2 : f * yRangeOf vr rest ≤ height - 2 * marg := hfyr
    rw [hcy]
    linarith [mul_comm (yRangeOf vr rest) f]
  have hcx0 : (0 : ℚ) ≤ cxq := by linarith
  have hcy0 : (0 : ℚ) ≤ cyq := by linarith
  have hpx1 : (pyInt cxq : ℚ) ≤ cxq := pyInt_le_of_nonneg hcx0
  have hpx2 : cxq - 1 < (pyInt cxq : ℚ) := sub_one_lt_pyInt_of_nonneg hcx0
  have hpy1 : (pyInt cyq : ℚ) ≤ cyq := pyInt_le_of_nonneg hcy0
  have hpy2 : cyq - 1 < (pyInt cyq : ℚ) := sub_one_lt_pyInt_of_nonneg hcy0
  refine ⟨by linarith, by linarith, by linarith, by linarith⟩

/-- Witness for C3: two vertices of radius 20 at logical positions `(0, 0)`
and `(3, 4)` on the default 600×400 canvas; the shape of the first vertex stays
inside the canvas after normalization. -/
theorem claim_C3_witness :
    0 ≤ ((getCoordOnCanvas (normalizeMatrix 600 400 1 [((0, 0), 20), ((3, 4), 20)])
          (0, 0)).1 : ℚ) - 20 := by
  have h := (claim_C3_normalize_layout 600 400 1 ((0, 0), 20) [((3, 4), 20)]
    (by norm_num [foldMax])
    (by norm_num [normalizeMargin, foldMax])
    (by norm_num [normalizeMargin, foldMax])).1
    ((0, 0), 20) (List.mem_cons_self _ _)
  exact h.1

/-! ## The round-trip of `_set_vertex_pos` and `_get_coord_on_canvas` -/

/-- C8: for every canvas point `(x, y)` and every invertible affine
transform matrix (every matrix built by the editor has last row `(0, 0, 1)`
and a nonzero determinant), storing the position through the inverse
transform (`_set_vertex_pos`) and reading it back through the forward map
(`_get_coord_on_canvas`) lands within ±1 pixel of `(x, y)` in each axis; the
only loss is the `int(...)` cast of the forward map. -/
theorem claim_C8_roundtrip (M : TMat) (hdet : M.det ≠ 0)
    (h20 : M 2 0 = 0) (h21 : M 2 1 = 0) (h22 : M 2 2 = 1) (x y : ℚ) :
    |((getCoordOnCanvas M (setVertexPosCoord M x y)).1 : ℚ) - x| ≤ 1
    ∧ |((getCoordOnCanvas M (setVertexPosCoord M x y)).2 : ℚ) - y| ≤ 1 := by
  have hroundv : M.mulVec ((inv3 M).mulVec ![x, y, 1]) = ![x, y, 1] :=
    mulVec_inv3_mulVec M hdet _
  have happly : ∀ w : Fin 3 → ℚ,
      (M.mulVec w) 2 = M 2 0 * w 0 + M 2 1 * w 1 + M 2 2 * w 2 := by
    intro w
    simp [Matrix.mulVec, Matrix.dotProduct, Fin.sum_univ_three]
  have hw2 : ((inv3 M).mulVec ![x, y, 1]) 2 = 1 := by
    have h := congrFun hroundv 2
    rw [happly ((inv3 M).mulVec ![x, y, 1]), h20, h21, h22] at h
    simpa using h
  have hvec : ![((inv3 M).mulVec ![x, y, 1]) 0, ((inv3 M).mulVec ![x, y, 1]) 1, 1]
      = (inv3 M).mulVec ![x, y, 1] := by
    funext i
    fin_cases i
    · simp
    · simp
    · simpa using hw2.symm
  have hcoord : getCoordOnCanvas M (setVertexPosCoord M x y) = (pyInt x, pyInt y) := by
    unfold getCoordOnCanvas setVertexPosCoord
    rw [hvec, hroundv]
    simp
  rw [hcoord]
  exact ⟨le_of_lt (abs_pyInt_sub_lt_one x), le_of_lt (abs_pyInt_sub_lt_one y)⟩

/-- Witness for C8: the initial y-flip matrix at the point `(5/2, 7)`. -/
theorem claim_C8_witness :
    |((getCoordOnCanvas flipMat (setVertexPosCoord flipMat (5 / 2) 7)).1 : ℚ) - 5 / 2| ≤ 1
    ∧ |((getCoordOnCanvas flipMat (setVertexPosCoord flipMat (5 / 2) 7)).2 : ℚ) - 7| ≤ 1 := by
  have h := claim_C8_roundtrip flipMat
    (by norm_num [flipMat, Matrix.det_fin_three])
    rfl rfl rfl
    (5 / 2) 7
  exact h

/-! ## `clear_drawing_button_callback` -/

/-- C5 counterexample: `clear_drawing_button_callback` leaves the gesture
state and the selected-edges set of a concrete state untouched, so the claim
that no selection or gesture state survives it is false. -/
theorem claim_C5_counterexample :
    ¬ ((clearDrawingButtonCallback gestureState).currentClique = none
       ∧ (clearDrawingButtonCallback gestureState).currentWalkVertex = none
       ∧ (clearDrawingButtonCallback gestureState).currentStarCenter = none
       ∧ (clearDrawingButtonCallback gestureState).currentStarLeaf = none
       ∧ (clearDrawingButtonCallback gestureState).selEdges = []) := by
  intro h
  have := h.1
  simp [clearDrawingButtonCallback, gestureState, baseState] at this

/-- C5 amended: `clear_drawing_button_callback` replaces the graph by the
empty one (no vertices, no edges, empty position store), clears the
selected-vertices set and reports; the selected-edges set and all four
multi-click gesture attributes survive it unchanged. -/
theorem claim_C5_amended (s : EState) :
    (clearDrawingButtonCallback s).selVerts = []
    ∧ (clearDrawingButtonCallback s).vertices = []
    ∧ (clearDrawingButtonCallback s).edges = []
    ∧ (clearDrawingButtonCallback s).pos = (fun _ => none)
    ∧ (clearDrawingButtonCallback s).textOutput = "Cleared drawing."
    ∧ (clearDrawingButtonCallback s).selEdges = s.selEdges
    ∧ (clearDrawingButtonCallback s).currentClique = s.currentClique
    ∧ (clearDrawingButtonCallback s).currentWalkVertex = s.currentWalkVertex
    ∧ (clearDrawingButtonCallback s).currentStarCenter = s.currentStarCenter
    ∧ (clearDrawingButtonCallback s).currentStarLeaf = s.currentStarLeaf := by
  simp [clearDrawingButtonCallback]

/-! ## `tool_selector_callback` -/

/-- C7: switching the active tool clears the selected-vertices set, the
selected-edges set and all multi-click gesture state — from ANY state, with
no assumption on what was selected or in progress; consequently switching
A→B→A with no intervening clicks leaves selection and gesture state
identical to before the first switch when they started empty (as the claim
has it, "both empty"). -/
theorem claim_C7_tool_switch (s : EState) (a b : String) :
    ((toolSelectorCallback s b).selVerts = []
      ∧ (toolSelectorCallback s b).selEdges = []
      ∧ (toolSelectorCallback s b).currentClique = none
      ∧ (toolSelectorCallback s b).currentWalkVertex = none
      ∧ (toolSelectorCallback s b).currentStarCenter = none
      ∧ (toolSelectorCallback s b).currentStarLeaf = none)
    ∧ (s.selVerts = [] ∧ s.selEdges = [] ∧ s.currentClique = none
        ∧ s.currentWalkVertex = none ∧ s.currentStarCenter = none
        ∧ s.currentStarLeaf = none →
      (toolSelectorCallback (toolSelectorCallback s b) a).selVerts = s.selVerts
      ∧ (toolSelectorCallback (toolSelectorCallback s b) a).selEdges = s.selEdges
      ∧ (toolSelectorCallback (toolSelectorCallback s b) a).currentClique = s.currentClique
      ∧ (toolSelectorCallback (toolSelectorCallback s b) a).currentWalkVertex
          = s.currentWalkVertex
      ∧ (toolSelectorCallback (toolSelectorCallback s b) a).currentStarCenter
          = s.currentStarCenter
      ∧ (toolSelectorCallback (toolSelectorCallback s b) a).currentStarLeaf
          = s.currentStarLeaf) := by
  constructor
  · simp [toolSelectorCallback, cleanTools, unselectAllVertices]
  · rintro ⟨h1, h2, h3, h4, h5, h6⟩
    simp [toolSelectorCallback, cleanTools, unselectAllVertices, h1, h2, h3, h4, h5, h6]

/-- Witness for C7: switching tools on `gestureState` — which has a selected
edge, a clique, a walk and a star gesture all in progress — clears the
selected-edges set and the walk gesture; and from the (empty) base state the
A→B→A double switch restores the selection exactly. -/
theorem claim_C7_witness :
    (toolSelectorCallback gestureState "select / move").selEdges = []
    ∧ (toolSelectorCallback gestureState "select / move").currentWalkVertex = none
    ∧ gestureState.selEdges = [(0, 1)]
    ∧ gestureState.currentWalkVertex = some 3
    ∧ (toolSelectorCallback (toolSelectorCallback baseState "add walk")
        "select / move").selVerts = baseState.selVerts := by
  refine ⟨?_, ?_, rfl, rfl, ?_⟩
  · exact (claim_C7_tool_switch gestureState "select / move" "select / move").1.2.1
  · exact (claim_C7_tool_switch gestureState "select / move" "select / move").1.2.2.2.1
  · exact ((claim_C7_tool_switch baseState "select / move" "add walk").2
      ⟨rfl, rfl, rfl, rfl, rfl, rfl⟩).1

/-! ## The arrowhead of `_draw_edge` -/

/-- C9 counterexample: with both radii 20 and endpoint canvas positions
`(0, 0)` and `(40, 40)`, the arrowhead is skipped although the Euclidean
distance between the centers (√3200 ≈ 56.6) is not below the sum of the
radii (40): the skip test of the source is per-axis, not Euclidean. -/
theorem claim_C9_counterexample :
    ¬ arrowDrawn (0, 0) (40, 40) 20 20
    ∧ ((20 : ℚ) + 20) ^ 2 ≤ sqnorm2 (0, 0) (40, 40) := by
  constructor
  · intro h
    rcases h with h | h <;> norm_num [arrowDrawn] at h
  · norm_num [sqnorm2]

/-- C9 amended: the arrowhead at the destination end of a directed edge is
skipped exactly when the Chebyshev distance between the endpoint canvas
positions (the larger of the two axis-aligned displacements) is at most the
sum of the two radii; otherwise it is drawn. -/
theorem claim_C9_amended (posu posv : ℚ × ℚ) (ru rv : ℚ) :
    ¬ arrowDrawn posu posv ru rv
      ↔ max |posu.1 - posv.1| |posu.2 - posv.2| ≤ rv + ru := by
  unfold arrowDrawn
  push_neg
  exact (max_le_iff).symm

/-! ## Edge colors -/

/-- C10: for an undirected graph, edge colors are orientation-insensitive:
after `set_edge_color((u, v), c)` on an edge (with the store keying each
edge under a single orientation, as the constructor and `set_edge_color`
maintain), `get_edge_color` answers `c` on `(u, v)`, on `(v, u)`, and on a
labelled triple `(v, u, lab)`; for a directed graph whose store keys
`(u, v)` but not the non-edge `(v, u)`, `get_edge_color` on the reversed
pair raises `KeyError (v, u)` instead of answering the stored color. -/
theorem claim_C10_edge_colors (edges : List (ℕ × ℕ))
    (colors : ℕ × ℕ → Option String) (u v : ℕ) (c : String) (lab : ℕ) :
    (hasEdgeG false edges u v →
      ¬ ((colors (u, v)).isSome ∧ (colors (v, u)).isSome) →
      ∀ colors2, setEdgeColor false edges colors u v c = Except.ok colors2 →
        getEdgeColor colors2 false u v = Except.ok c
        ∧ getEdgeColor colors2 false v u = Except.ok c
        ∧ getEdgeColorT colors2 false (v, u, lab) = Except.ok c)
    ∧ (hasEdgeG true edges u v →
      (colors (u, v)).isSome → colors (v, u) = none → u ≠ v →
      ∀ colors2, setEdgeColor true edges colors u v c = Except.ok colors2 →
        getEdgeColor colors2 true u v = Except.ok c
        ∧ getEdgeColor colors2 true v u = Except.error (v, u)) := by
  constructor
  · intro hedge hnotboth colors2 hset
    rw [setEdgeColor, if_pos hedge] at hset
    by_cases hkey : (colors (u, v)).isSome
    · rw [if_pos hkey] at hset
      injection hset with hc2
      subst hc2
      have hvu : v = u ∨ colors (v, u) = none := by
        by_cases huv : v = u
        · exact Or.inl huv
        · refine Or.inr ?_
          rcases hvu : colors (v, u) with _ | c0
          · rfl
          · exact absurd ⟨hkey, by rw [hvu]; rfl⟩ hnotboth
      refine ⟨?_, ?_, ?_⟩
      · rw [getEdgeColor]
        simp
      · rw [getEdgeColor]
        rcases hvu with rfl | hvu
        · simp
        · by_cases hflip : (v, u) = (u, v)
          · simp [hflip]
          · simp only [hflip, if_neg hflip]
            rcases hvu2 : colors (v, u) with _ | c0
            · simp [hvu2]
            · rw [hvu] at hvu2
              cases hvu2
      · rw [getEdgeColorT]
        rcases hvu with rfl | hvu
        · rw [getEdgeColor]
          simp
        · rw [getEdgeColor]
          by_cases hflip : (v, u) = (u, v)
          · simp [hflip]
          · simp only [hflip, if_neg hflip]
            simp [hvu]
    · rw [if_neg hkey] at hset
      injection hset with hc2
      subst hc2
      have hnone : colors (u, v) = none := by
        rcases hne : colors (u, v) with _ | c0
        · rfl
        · exact absurd (by rw [hne]; rfl) hkey
      refine ⟨?_, ?_, ?_⟩
      · rw [getEdgeColor]
        by_cases hflip : (u, v) = (v, u)
        · simp [hflip]
        · simp [hflip, hnone]
      · rw [getEdgeColor]
        simp
      · rw [getEdgeColorT, getEdgeColor]
        simp
  · intro hedge hkey hrev hne colors2 hset
    rw [setEdgeColor, if_pos hedge, if_pos hkey] at hset
    injection hset with hc2
    subst hc2
    have hflip : ((v, u) : ℕ × ℕ) ≠ (u, v) := by
      intro hc
      exact hne (congrArg Prod.snd hc)
    refine ⟨?_, ?_⟩
    · rw [getEdgeColor]
      simp
    · rw [getEdgeColor]
      simp [hflip, hrev]

/-- Witness for C10 (undirected part): recoloring edge `(1, 6)` of a store
that keys it as `(1, 6)`, then reading the reversed pair `(6, 1)`. -/
theorem claim_C10_witness :
    getEdgeColor (fun p => if p = (1, 6) then some "#123456" else colorsC10 p)
      false 6 1 = Except.ok "#123456" := by
  have h := (claim_C10_edge_colors [(1, 6)] colorsC10 1 6 "#123456" 0).1
    (Or.inl (List.mem_singleton.mpr rfl))
    (by simp [colorsC10])
    (fun p => if p = (1, 6) then some "#123456" else colorsC10 p)
    (by simp [setEdgeColor, hasEdgeG, colorsC10])
  exact h.2.1

/-! ## `layout_selector_callback` -/

/-- C6 counterexample: an infeasible layout request (planar layout on a
non-planar graph) clears the in-progress walk gesture (`_clean_tools()` runs
before the feasibility checks), so the claim that any in-progress gesture
state is as before the request is false. -/
theorem claim_C6_counterexample :
    (layoutSelectorCallback extLayoutNone gestureState "value" "planar").currentWalkVertex
        = none
    ∧ gestureState.currentWalkVertex = some 3 := by
  constructor
  · simp [layoutSelectorCallback, cleanTools, gestureState, baseState]
  · rfl

/-- C6 amended: when a layout request is infeasible (planar layout on a
non-planar graph, directed-acyclic layout on an undirected graph, forest
layout on a directed graph or on a non-forest), `layout_selector_callback`
writes one of the four error messages to the text output, does not raise
(the model is a total function), and leaves the graph (vertex and edge
lists), the vertex positions, the transform matrix and both selection sets
unchanged; the multi-click gesture state, however, is cleared before the
feasibility checks. -/
theorem claim_C6_infeasible_layout (extLayout : String → EState → ℕ → Option (ℚ × ℚ))
    (s : EState) (changeNew : String)
    (h : (changeNew = "planar" ∧ s.planarB = false)
      ∨ (changeNew = "acyclic" ∧ s.directed = false)
      ∨ ((changeNew = "forest (root up)" ∨ changeNew = "forest (root down)")
          ∧ (s.directed = true ∨ s.forestB = false))) :
    (layoutSelectorCallback extLayout s "value" changeNew).vertices = s.vertices
    ∧ (layoutSelectorCallback extLayout s "value" changeNew).edges = s.edges
    ∧ (layoutSelectorCallback extLayout s "value" changeNew).pos = s.pos
    ∧ (layoutSelectorCallback extLayout s "value" changeNew).transform = s.transform
    ∧ (layoutSelectorCallback extLayout s "value" changeNew).selVerts = s.selVerts
    ∧ (layoutSelectorCallback extLayout s "value" changeNew).selEdges = s.selEdges
    ∧ (layoutSelectorCallback extLayout s "value" changeNew).currentClique = none
    ∧ (layoutSelectorCallback extLayout s "value" changeNew).currentWalkVertex = none
    ∧ (layoutSelectorCallback extLayout s "value" changeNew).currentStarCenter = none
    ∧ (layoutSelectorCallback extLayout s "value" changeNew).currentStarLeaf = none
    ∧ ((layoutSelectorCallback extLayout s "value" changeNew).textOutput = planarErrMsg
        ∨ (layoutSelectorCallback extLayout s "value" changeNew).textOutput = acyclicErrMsg
        ∨ (layoutSelectorCallback extLayout s "value" changeNew).textOutput
            = forestDirectedErrMsg
        ∨ (layoutSelectorCallback extLayout s "value" changeNew).textOutput
            = forestNotForestErrMsg) := by
  rcases h with ⟨rfl, hp⟩ | ⟨rfl, hp⟩ | ⟨hc, hp⟩
  · simp [layoutSelectorCallback, cleanTools, hp]
  · simp [layoutSelectorCallback, cleanTools, hp]
  · rcases hp with hd | hf
    · rcases hc with rfl | rfl <;> simp [layoutSelectorCallback, cleanTools, hd]
    · by_cases hd : s.directed = true
      · rcases hc with rfl | rfl <;> simp [layoutSelectorCallback, cleanTools, hd]
      · rcases hc with rfl | rfl <;> simp [layoutSelectorCallback, cleanTools, hd, hf]

/-- Witness for C6: the planar-infeasible request on the gesture state
leaves its transform matrix unchanged. -/
theorem claim_C6_witness :
    (layoutSelectorCallback extLayoutNone gestureState "value" "planar").transform
      = gestureState.transform := by
  exact (claim_C6_infeasible_layout extLayoutNone gestureState "planar"
    (Or.inl ⟨rfl, rfl⟩)).2.2.2.1

/-! ## The select / move press-drag-release machine -/

theorem foldMoves_spec (moves : List (ℚ × ℚ)) (s : EState) (v : ℕ)
    (h : s.draggedVertex = some v) :
    (foldMoves s moves).draggedVertex = some v
    ∧ (foldMoves s moves).selVerts = s.selVerts
    ∧ (foldMoves s moves).selEdges = s.selEdges
    ∧ (foldMoves s moves).initialClickPos = s.initialClickPos
    ∧ (foldMoves s moves).transform = s.transform
    ∧ (∀ w, w ≠ v → (foldMoves s moves).pos w = s.pos w)
    ∧ (foldMoves s moves).pos v = lastPosUpdate s.transform (s.pos v) moves := by
  induction moves generalizing s with
  | nil => exact ⟨h, rfl, rfl, rfl, rfl, fun _ _ => rfl, rfl⟩
  | cons m rest ih =>
      have hstep : mouseMoveHandler s m.1 m.2
          = { setVertexPosS s v m.1 m.2 with
              textOutput := "Dragging vertex " ++ toString v } := by
        rw [mouseMoveHandler, h]
      have hfold : foldMoves s (m :: rest) = foldMoves (mouseMoveHandler s m.1 m.2) rest :=
        rfl
      have hd' : (mouseMoveHandler s m.1 m.2).draggedVertex = some v := by
        rw [hstep]
        exact h
      rcases ih (mouseMoveHandler s m.1 m.2) hd' with
        ⟨ih1, ih2, ih3, ih4, ih5, ih6, ih7⟩
      have hsel : (mouseMoveHandler s m.1 m.2).selVerts = s.selVerts := by
        rw [hstep]; rfl
      have hsele : (mouseMoveHandler s m.1 m.2).selEdges = s.selEdges := by
        rw [hstep]; rfl
      have hicp : (mouseMoveHandler s m.1 m.2).initialClickPos = s.initialClickPos := by
        rw [hstep]; rfl
      have htr : (mouseMoveHandler s m.1 m.2).transform = s.transform := by
        rw [hstep]; rfl
      have hposw : ∀ w, w ≠ v → (mouseMoveHandler s m.1 m.2).pos w = s.pos w := by
        intro w hw
        rw [hstep]
        simp [setVertexPosS, hw]
      have hposv : (mouseMoveHandler s m.1 m.2).pos v
          = some (setVertexPosCoord s.transform m.1 m.2) := by
        rw [hstep]
        simp [setVertexPosS]
      refine ⟨by rw [hfold]; exact ih1,
              by rw [hfold, ih2, hsel],
              by rw [hfold, ih3, hsele],
              by rw [hfold, ih4, hicp],
              by rw [hfold, ih5, htr],
              fun w hw => by rw [hfold, ih6 w hw, hposw w hw],
              ?_⟩
      rw [hfold, ih7, htr, hposv]
      rfl

theorem selectVertex_selVerts (s : EState) (v : ℕ) :
    (selectVertex s v).selVerts
      = if v ∈ s.selVerts then s.selVerts.erase v else v :: s.selVerts := by
  unfold selectVertex
  split <;> rfl

theorem selectVertex_selEdges (s : EState) (v : ℕ) :
    (selectVertex s v).selEdges = s.selEdges := by
  unfold selectVertex
  split <;> rfl

theorem selectVertex_pos (s : EState) (v : ℕ) :
    (selectVertex s v).pos = s.pos := by
  unfold selectVertex
  split <;> rfl

/-- What `mouse_up_handler` does while a vertex is dragged: below the
10-pixel threshold it toggles that vertex in `selected_vertices`, otherwise
it leaves the selection alone; in both cases it never touches
`selected_edges` or the position store. -/
theorem mouseUpHandler_drag (s : EState) (v : ℕ) (px py : ℚ)
    (h : s.draggedVertex = some v) :
    ((|px - s.initialClickPos.1| < 10 ∧ |py - s.initialClickPos.2| < 10) →
        (mouseUpHandler s px py).selVerts
          = if v ∈ s.selVerts then s.selVerts.erase v else v :: s.selVerts)
    ∧ (¬ (|px - s.initialClickPos.1| < 10 ∧ |py - s.initialClickPos.2| < 10) →
        (mouseUpHandler s px py).selVerts = s.selVerts)
    ∧ (mouseUpHandler s px py).selEdges = s.selEdges
    ∧ (mouseUpHandler s px py).pos = s.pos := by
  have hred : mouseUpHandler s px py
      = if |px - s.initialClickPos.1| < 10 ∧ |py - s.initialClickPos.2| < 10 then
          { (selectVertex s v) with draggedVertex := none }
        else
          { s with draggedVertex := none, textOutput := "Done dragging vertex." } := by
    rw [mouseUpHandler, h]
  refine ⟨?_, ?_, ?_, ?_⟩
  · intro hc
    rw [hred, if_pos hc]
    rw [show ({ (selectVertex s v) with draggedVertex := none } : EState).selVerts
          = (selectVertex s v).selVerts from rfl]
    exact selectVertex_selVerts s v
  · intro hc
    rw [hred, if_neg hc]
  · rw [hred]
    split
    · rw [show ({ (selectVertex s v) with draggedVertex := none } : EState).selEdges
            = (selectVertex s v).selEdges from rfl]
      exact selectVertex_selEdges s v
    · rfl
  · rw [hred]
    split
    · rw [show ({ (selectVertex s v) with draggedVertex := none } : EState).pos
            = (selectVertex s v).pos from rfl]
      exact selectVertex_pos s v
    · rfl

theorem mouseDownSelectMove_drag_inv (s : EState) (px py : ℚ) (s1 : EState) (v : ℕ)
    (h0 : s.draggedVertex = none)
    (hok : mouseDownSelectMove s px py = some s1)
    (hdrag : s1.draggedVertex = some v) :
    s1 = { s with initialClickPos := (px, py), draggedVertex := some v,
                  textOutput := "Click on vertex " ++ toString v } := by
  rcases hv : s.vertices.mapM (vertexEntry s) with _ | ventries
  · rw [mouseDownSelectMove, hv] at hok
    cases hok
  · rcases hg : getVertexAt s.canvasWidth px py ventries with _ | v2
    · rcases he : s.edges.mapM (edgeEntry s) with _ | eentries
      · rw [mouseDownSelectMove, hv] at hok
        simp only [Option.bind_eq_bind, Option.some_bind] at hok
        rw [hg, he] at hok
        cases hok
      · rw [mouseDownSelectMove, hv] at hok
        simp only [Option.bind_eq_bind, Option.some_bind] at hok
        rw [hg, he] at hok
        simp only [Option.bind_eq_bind, Option.some_bind] at hok
        rcases hge : getEdgeAt px py (hasEdgeB s) eentries with _ | e <;> rw [hge] at hok
        · injection hok with hok
          rw [← hok] at hdrag
          have hd2 : s.draggedVertex = some v := hdrag
          rw [h0] at hd2
          cases hd2
        · simp only [] at hok
          by_cases hmem : e ∈ s.selEdges
          · rw [if_pos hmem] at hok
            injection hok with hok
            rw [← hok] at hdrag
            have hd2 : s.draggedVertex = some v := hdrag
            rw [h0] at hd2
            cases hd2
          · rw [if_neg hmem] at hok
            injection hok with hok
            rw [← hok] at hdrag
            have hd2 : s.draggedVertex = some v := hdrag
            rw [h0] at hd2
            cases hd2
    · rw [mouseDownSelectMove, hv] at hok
      simp only [Option.bind_eq_bind, Option.some_bind] at hok
      rw [hg] at hok
      injection hok with hok
      rw [← hok] at hdrag
      have hv2 : some v2 = some v := hdrag
      injection hv2 with hv2
      rw [← hok, hv2]

/-- C1 amended: under the `select / move` tool, a pointer-down on a vertex
followed by moves and a pointer-up with displacement strictly below 10
pixels in both axes toggles the selection of that vertex and performs no
position write at release time — but the position is NOT restored: it
remains whatever the last `mouse_move_handler` tick stored (up to 9 pixels
away from the press point), since every move commits the dragged position
immediately.  A pointer-up with displacement of 10 pixels or more in some
axis (in particular 11 or more) leaves both selection sets unchanged, the
committed position likewise being the one stored by the last move. -/
theorem claim_C1_select_move (s : EState) (d u : ℚ × ℚ) (moves : List (ℚ × ℚ))
    (s1 : EState) (v : ℕ)
    (hnd : s.selVerts.Nodup) (h0 : s.draggedVertex = none)
    (hok : mouseDownSelectMove s d.1 d.2 = some s1)
    (hdrag : s1.draggedVertex = some v) :
    selectMoveScenario s d moves u = some (mouseUpHandler (foldMoves s1 moves) u.1 u.2)
    ∧ (|u.1 - d.1| < 10 ∧ |u.2 - d.2| < 10 →
        ((v ∈ (mouseUpHandler (foldMoves s1 moves) u.1 u.2).selVerts ↔ v ∉ s.selVerts)
         ∧ (∀ w, w ≠ v →
             (w ∈ (mouseUpHandler (foldMoves s1 moves) u.1 u.2).selVerts
               ↔ w ∈ s.selVerts))
         ∧ (mouseUpHandler (foldMoves s1 moves) u.1 u.2).selEdges = s.selEdges
         ∧ (mouseUpHandler (foldMoves s1 moves) u.1 u.2).pos = (foldMoves s1 moves).pos))
    ∧ (¬ (|u.1 - d.1| < 10 ∧ |u.2 - d.2| < 10) →
        ((mouseUpHandler (foldMoves s1 moves) u.1 u.2).selVerts = s.selVerts
         ∧ (mouseUpHandler (foldMoves s1 moves) u.1 u.2).selEdges = s.selEdges
         ∧ (mouseUpHandler (foldMoves s1 moves) u.1 u.2).pos = (foldMoves s1 moves).pos))
    ∧ (∀ w, w ≠ v → (foldMoves s1 moves).pos w = s.pos w)
    ∧ (foldMoves s1 moves).pos v = lastPosUpdate s.transform (s.pos v) moves := by
  have hshape := mouseDownSelectMove_drag_inv s d.1 d.2 s1 v h0 hok hdrag
  rcases foldMoves_spec moves s1 v hdrag with ⟨f1, f2, f3, f4, f5, f6, f7⟩
  have hsel1 : s1.selVerts = s.selVerts := by rw [hshape]
  have hsele1 : s1.selEdges = s.selEdges := by rw [hshape]
  have hicp1 : s1.initialClickPos = (d.1, d.2) := by rw [hshape]
  have htr1 : s1.transform = s.transform := by rw [hshape]
  have hpos1 : s1.pos = s.pos := by rw [hshape]
  obtain ⟨up1, up2, up3, up4⟩ :=
    mouseUpHandler_drag (foldMoves s1 moves) v u.1 u.2 f1
  have hcondeq : ((|u.1 - (foldMoves s1 moves).initialClickPos.1| < 10
        ∧ |u.2 - (foldMoves s1 moves).initialClickPos.2| < 10))
      ↔ (|u.1 - d.1| < 10 ∧ |u.2 - d.2| < 10) := by
    rw [f4, hicp1]
  have hS2sel : (foldMoves s1 moves).selVerts = s.selVerts := by rw [f2, hsel1]
  refine ⟨?_, ?_, ?_, fun w hw => by rw [f6 w hw, hpos1], by rw [f7, htr1, hpos1]⟩
  · rw [selectMoveScenario, hok, Option.map_some']
  · intro hsmall
    have hsel2 := up1 (hcondeq.mpr hsmall)
    rw [hS2sel] at hsel2
    refine ⟨?_, ?_, by rw [up3, f3, hsele1], up4⟩
    · rw [hsel2]
      by_cases hv : v ∈ s.selVerts
      · rw [if_pos hv]
        constructor
        · intro hin
          exact absurd ((hnd.mem_erase_iff).mp hin).1 (by simp)
        · intro hnin
          exact absurd hv hnin
      · rw [if_neg hv]
        simp [hv]
    · intro w hw
      rw [hsel2]
      by_cases hv : v ∈ s.selVerts
      · rw [if_pos hv, hnd.mem_erase_iff]
        constructor
        · intro hin
          exact hin.2
        · intro hin
          exact ⟨hw, hin⟩
      · rw [if_neg hv]
        simp [List.mem_cons, hw]
  · intro hbig
    refine ⟨?_, by rw [up3, f3, hsele1], up4⟩
    rw [up2 (fun hc => hbig (hcondeq.mp hc)), hS2sel]

theorem mouseDownSelectMove_base :
    mouseDownSelectMove baseState 50 50 = some baseDownState := by
  have hp50 : pyInt (50 : ℚ) = 50 := by norm_num [pyInt]
  have hventry : vertexEntry baseState 0 = some ⟨0, 50, 50, 20⟩ := by
    simp [vertexEntry, baseState, getCoordOnCanvas_one, hp50]
  have hmapM : baseState.vertices.mapM (vertexEntry baseState) = some [⟨0, 50, 50, 20⟩] := by
    rw [show baseState.vertices = [0] from rfl]
    simp only [List.mapM, List.mapM.loop, hventry, Option.bind_eq_bind, Option.some_bind,
      List.reverse_cons, List.reverse_nil, List.nil_append, Option.pure_def]
  have hhit : getVertexAt baseState.canvasWidth 50 50 [(⟨0, 50, 50, 20⟩ : VEntry)]
      = some 0 := by
    rw [show baseState.canvasWidth = 600 from rfl]
    norm_num [getVertexAt, getVertexAtAux, vHit, vDistSq]
  rw [mouseDownSelectMove]
  simp only [Option.bind_eq_bind]
  rw [hmapM]
  simp only [Option.some_bind]
  rw [hhit]
  rfl

theorem foldMoves_baseDown_eval :
    foldMoves baseDownState [((59 : ℚ), (50 : ℚ))] = baseMovedState := rfl

/-- C1 counterexample: from the base state (lone vertex `0` at canvas
position `(50, 50)`, empty selection), press on the vertex at `(50, 50)`,
move to `(59, 50)` and release at `(59, 50)` — a displacement of 9 pixels,
below the threshold in both axes.  The release toggles the selection of
vertex `0` as the claim says, but the stored position of vertex `0` is now
`(59, 50)`, not its pre-press position `(50, 50)`: the claim that no
position change is committed is false. -/
theorem claim_C1_counterexample :
    (selectMoveScenario baseState (50, 50) [(59, 50)] (59, 50)).map
        (fun sF => (sF.selVerts, sF.pos 0))
      = some ([0], some (59, 50))
    ∧ baseState.selVerts = [] ∧ baseState.pos 0 = some (50, 50) := by
  refine ⟨?_, rfl, rfl⟩
  rw [selectMoveScenario, mouseDownSelectMove_base, Option.map_some']
  rw [show foldMoves baseDownState [((59 : ℚ), (50 : ℚ))] = baseMovedState from
    foldMoves_baseDown_eval]
  obtain ⟨up1, _, _, up4⟩ := mouseUpHandler_drag baseMovedState 0 59 50 rfl
  have hsmall : |(59 : ℚ) - baseMovedState.initialClickPos.1| < 10
      ∧ |(50 : ℚ) - baseMovedState.initialClickPos.2| < 10 := by
    rw [show baseMovedState.initialClickPos = ((50 : ℚ), (50 : ℚ)) from rfl]
    norm_num
  have hsel := up1 hsmall
  rw [show baseMovedState.selVerts = [] from rfl] at hsel
  rw [if_neg (List.not_mem_nil 0)] at hsel
  rw [Option.map_some']
  rw [hsel, up4]
  rw [show baseMovedState.pos 0
      = some (setVertexPosCoord baseDownState.transform 59 50) from rfl]
  rw [show baseDownState.transform = 1 from rfl, setVertexPosCoord_one]

/-- Witness for C1: the same press on the vertex followed by a move to
`(70, 50)` and a release there — a 20-pixel displacement — leaves the
selection exactly as before the press. -/
theorem claim_C1_witness :
    (selectMoveScenario baseState (50, 50) [(70, 50)] (70, 50)).map EState.selVerts
      = some baseState.selVerts := by
  have h := claim_C1_select_move baseState (50, 50) (70, 50) [(70, 50)]
      baseDownState 0 List.nodup_nil rfl mouseDownSelectMove_base rfl
  have hb := h.2.2.1 (by norm_num)
  rw [h.1, Option.map_some', hb.1]

end Phitigra
